import Mathlib

/-!
Verification of the encrypted persistence core of the Peach-Blossom-Paper
repository (`src-tauri/src/crypto.rs` and `src-tauri/src/storage.rs`),
as a shallow embedding in Lean 4.

Modelling conventions:

* Machine bytes are `Fin 256`; byte strings are `List Byte`.
* Rust `String` / `&str` values are Lean `String`s (both are sequences of
  Unicode scalar values backed by UTF-8).
* External crates (`argon2`, `aes_gcm`, `base64`, `serde_json`) are modelled
  as abstract function parameters collected in environment structures
  (`CryptoEnv`, `SerdeEnv`); the repository's own control flow around them is
  translated line by line.  Theorems that depend on documented properties of
  those crates (base64 round-trip, AEAD inverse) take them as explicit
  hypotheses, and witnesses instantiate the environments with small concrete
  executable implementations.
* File-system state for the entries file is `EntriesFile`: the file is
  missing, unreadable (`fs::read_to_string` fails), or holds a string.
* `Result<T>` is `Except String T`, with the repository's error messages.
* Randomness (`generate_salt`, `generate_nonce`, `rand` choice) is passed in
  as explicit arguments.
-/

set_option autoImplicit false

deriving instance DecidableEq for Except

namespace PeachBlossom

/-- Machine bytes, as used for salts, nonces, keys and ciphertexts. -/
abbrev Byte := Fin 256

/-- UTF-8 byte length of a string, modelling Rust `str::len`
(`Char.utf8Size` agrees with Rust `char::len_utf8`). -/
def utf8Len (s : String) : Nat := (s.data.map Char.utf8Size).sum

/-- Models Rust `char::is_ascii_lowercase`. -/
def isAsciiLowercase (c : Char) : Bool := decide (97 ≤ c.toNat ∧ c.toNat ≤ 122)

/-- Models Rust `char::is_ascii_uppercase`. -/
def isAsciiUppercase (c : Char) : Bool := decide (65 ≤ c.toNat ∧ c.toNat ≤ 90)

/-- Models Rust `char::is_ascii_digit`. -/
def isAsciiDigit (c : Char) : Bool := decide (48 ≤ c.toNat ∧ c.toNat ≤ 57)

/-- Fragment of Rust `char::is_alphanumeric` (Unicode Alphabetic or numeric)
sufficient for the characters considered here: ASCII alphanumerics, CJK
Unified Ideographs (U+4E00..U+9FFF) and Japanese kana (U+3040..U+30FF) are
alphanumeric in Unicode; ASCII punctuation and symbols are not. -/
def rustIsAlphanumeric (c : Char) : Bool :=
  decide ((48 ≤ c.toNat ∧ c.toNat ≤ 57) ∨ (65 ≤ c.toNat ∧ c.toNat ≤ 90) ∨
    (97 ≤ c.toNat ∧ c.toNat ≤ 122) ∨ (0x4E00 ≤ c.toNat ∧ c.toNat ≤ 0x9FFF) ∨
    (0x3040 ≤ c.toNat ∧ c.toNat ≤ 0x30FF))

/-- Models `content.trim().is_empty()`: every character is whitespace
(ASCII fragment of Rust `char::is_whitespace`). -/
def trimEmpty (s : String) : Bool :=
  s.data.all (fun c => c == ' ' || c == '\t' || c == '\n' || c == '\r')

/-- Models Rust `str::to_lowercase` (ASCII fragment; `Char.toLower` lowers
exactly the ASCII uppercase letters). -/
def rustLower (s : String) : String := String.map Char.toLower s

/-- Models Rust `str::contains` with a string pattern: substring test. -/
def strContains (hay pat : String) : Bool := decide (pat.data <:+: hay.data)

/-! ## crypto.rs -/

/-- Mirrors `struct EncryptionResult` in `crypto.rs`: the on-disk encrypted
container with base64-encoded fields. -/
structure EncryptionResult where
  encrypted_data : String
  nonce : String
  salt : String
deriving DecidableEq, Repr

/-- Mirrors `struct DecryptionParams` in `crypto.rs`. -/
structure DecryptionParams where
  encrypted_data : String
  nonce : String
  salt : String
  password : String
deriving DecidableEq, Repr

/-- Abstract interface to the external cryptography and encoding crates used
by `crypto.rs`.  `argonHash` is `Argon2::default().hash_password` together
with `SaltString::encode_b64` and hash extraction (`none` covers any failure
of those steps); `aeadEnc`/`aeadDec` are AES-256-GCM `encrypt`/`decrypt`
(key, nonce, data); `b64enc`/`b64dec` are `base64` `STANDARD` encode/decode;
`strBytes` is `str::as_bytes` and `bytesStr` is `String::from_utf8`. -/
structure CryptoEnv where
  argonHash : String → List Byte → Option (List Byte)
  aeadEnc : List Byte → List Byte → List Byte → Option (List Byte)
  aeadDec : List Byte → List Byte → List Byte → Option (List Byte)
  b64enc : List Byte → String
  b64dec : String → Option (List Byte)
  strBytes : String → List Byte
  bytesStr : List Byte → Option String

/-- Mirrors `BackendEncryption::derive_key`: run the Argon2 password hash and
take the first 32 bytes, failing if the hash is shorter than `KEY_LENGTH`.
The message collapses the distinct internal argon2 failure messages. -/
def derive_key (E : CryptoEnv) (password : String) (salt : List Byte) :
    Except String (List Byte) :=
  match E.argonHash password salt with
  | none => .error "Failed to hash password"
  | some hash_bytes =>
    if hash_bytes.length < 32 then .error "Hash too short"
    else .ok (hash_bytes.take 32)

/-- Mirrors `BackendEncryption::encrypt`.  The randomly generated salt and
nonce (`generate_salt`, `generate_nonce`) are passed in as arguments. -/
def encrypt (E : CryptoEnv) (salt nonce : List Byte) (data password : String) :
    Except String EncryptionResult :=
  if data = "" ∨ password = "" then
    .error "Data and password cannot be empty"
  else
    match derive_key E password salt with
    | .error e => .error e
    | .ok key_bytes =>
      match E.aeadEnc key_bytes nonce (E.strBytes data) with
      | none => .error "Encryption failed"
      | some encrypted_bytes =>
        .ok { encrypted_data := E.b64enc encrypted_bytes
              nonce := E.b64enc nonce
              salt := E.b64enc salt }

/-- Mirrors `BackendEncryption::decrypt`: emptiness checks, base64 decoding
of the three fields, the nonce-length check (and no salt-length check, as in
the source), key derivation, AEAD decryption and UTF-8 conversion. -/
def decrypt (E : CryptoEnv) (params : DecryptionParams) : Except String String :=
  if params.encrypted_data = "" ∨ params.nonce = "" ∨ params.salt = "" ∨
      params.password = "" then
    .error "All decryption parameters are required"
  else
    match E.b64dec params.encrypted_data with
    | none => .error "Failed to decode encrypted data"
    | some encrypted_bytes =>
      match E.b64dec params.nonce with
      | none => .error "Failed to decode nonce"
      | some nonce_bytes =>
        match E.b64dec params.salt with
        | none => .error "Failed to decode salt"
        | some salt_bytes =>
          if nonce_bytes.length ≠ 12 then .error "Invalid nonce length"
          else
            match derive_key E params.password salt_bytes with
            | .error e => .error e
            | .ok key_bytes =>
              match E.aeadDec key_bytes nonce_bytes encrypted_bytes with
              | none => .error "Decryption failed (possibly wrong password)"
              | some decrypted_bytes =>
                match E.bytesStr decrypted_bytes with
                | none => .error "Failed to convert decrypted data to string"
                | some decrypted_text => .ok decrypted_text

/-- Mirrors `BackendEncryption::validate_password_strength`: sequential
additions to a `u8` score (the sum never exceeds 100, so `Nat` is exact),
then `score.min(100)`. -/
def validate_password_strength (password : String) : Nat :=
  if password = "" then 0
  else
    let score := 0
    let score := if utf8Len password ≥ 8 then score + 25 else score
    let score := if utf8Len password ≥ 12 then score + 15 else score
    let score := if utf8Len password ≥ 16 then score + 10 else score
    let score := if password.data.any isAsciiLowercase then score + 10 else score
    let score := if password.data.any isAsciiUppercase then score + 10 else score
    let score := if password.data.any isAsciiDigit then score + 10 else score
    let score := if password.data.any (fun c => !rustIsAlphanumeric c) then score + 20 else score
    min score 100

/-! ## models.rs -/

/-- Mirrors `enum MemoryType`. -/
inductive MemoryType where
  | text | image | audio | mixed
deriving DecidableEq, Repr

/-- Mirrors `enum EmotionTag`. -/
inductive EmotionTag where
  | joy | sadness | nostalgia | hope | regret | attachment | persistence
deriving DecidableEq, Repr

/-- Mirrors `struct Attachment` (`DateTime<Utc>` is modelled as `Int`,
preserving its total order; `u64` sizes as `Nat`). -/
structure Attachment where
  id : String
  file_name : String
  file_path : String
  file_type : String
  file_size : Nat
  is_encrypted : Bool
  created_at : Int
deriving DecidableEq, Repr

/-- Mirrors `struct MemoryMetadata`. -/
structure MemoryMetadata where
  word_count : Option Nat
  reading_time : Option Nat
  location : Option String
  weather : Option String
  mood : Option String
  tags : Option (List String)
deriving DecidableEq, Repr

/-- Mirrors `struct MemoryEntry` (`DateTime<Utc>` as `Int`). -/
structure MemoryEntry where
  id : String
  title : String
  content : String
  memory_type : MemoryType
  emotion_tags : List EmotionTag
  created_at : Int
  updated_at : Int
  is_encrypted : Bool
  attachments : Option (List Attachment)
  metadata : Option MemoryMetadata
deriving DecidableEq, Repr

/-- Mirrors `struct DateRange`; the Rust field `end` is called `stop` here
because `end` is a Lean keyword. -/
structure DateRange where
  start : Int
  stop : Int
deriving DecidableEq, Repr

/-- Mirrors `struct SearchFilter`. -/
structure SearchFilter where
  keyword : Option String
  memory_type : Option MemoryType
  emotion_tags : Option (List EmotionTag)
  date_range : Option DateRange
  tags : Option (List String)
deriving DecidableEq, Repr

/-! ## storage.rs -/

/-- Abstract interface to `serde_json` as used by `storage.rs`:
`parseContainer` is `serde_json::from_str::<EncryptionResult>`,
`parseEntries` is `serde_json::from_str::<Vec<MemoryEntry>>`,
`serializeEntries` is `serde_json::to_string_pretty` on the entries list and
`serializeContainer` is `serde_json::to_string` on an `EncryptionResult`. -/
structure SerdeEnv where
  parseContainer : String → Option EncryptionResult
  parseEntries : String → Option (List MemoryEntry)
  serializeEntries : List MemoryEntry → String
  serializeContainer : EncryptionResult → String

/-- State of the entries file (`memories.json`): missing, present but
unreadable (`fs::read_to_string` fails), or present with string content. -/
inductive EntriesFile where
  | missing
  | unreadable
  | content (s : String)
deriving DecidableEq, Repr

/-- Mirrors `StorageManager::load_all_entries`: missing file is the empty
collection, blank content is the empty collection, content parsing as an
`EncryptionResult` is an error demanding a password, otherwise the content is
parsed as a plain entries list. -/
def load_all_entries (S : SerdeEnv) (f : EntriesFile) :
    Except String (List MemoryEntry) :=
  match f with
  | .missing => .ok []
  | .unreadable => .error "Failed to read entries file"
  | .content s =>
    if trimEmpty s then .ok []
    else
      match S.parseContainer s with
      | some _ => .error "Entries are encrypted, password required"
      | none =>
        match S.parseEntries s with
        | some entries => .ok entries
        | none => .error "Failed to parse entries"

/-- Mirrors `self.load_all_entries().await.unwrap_or_default()` as used in
`save_entry` and `delete_entry`: a load failure is swallowed and replaced by
the empty collection. -/
def load_or_default (S : SerdeEnv) (f : EntriesFile) : List MemoryEntry :=
  match load_all_entries S f with
  | .ok entries => entries
  | .error _ => []

/-- Mirrors the upsert step of `save_entry`: replace at the first position
whose id matches, else append. -/
def upsert (entries : List MemoryEntry) (entry : MemoryEntry) :
    List MemoryEntry :=
  match entries.findIdx? (fun e => e.id == entry.id) with
  | some index => entries.set index entry
  | none => entries ++ [entry]

/-- Mirrors `StorageManager::save_all_entries`: serialize the whole list,
encrypt it when a password is supplied, and write the file (the written
content is returned as the new file state). -/
def save_all_entries (S : SerdeEnv) (E : CryptoEnv) (salt nonce : List Byte)
    (entries : List MemoryEntry) (password : Option String) :
    Except String EntriesFile :=
  let json_content := S.serializeEntries entries
  match password with
  | some pw =>
    match encrypt E salt nonce json_content pw with
    | .error e => .error e
    | .ok encd => .ok (.content (S.serializeContainer encd))
  | none => .ok (.content json_content)

/-- Mirrors `StorageManager::save_entry`: load (swallowing failures), upsert
by id, write everything back. -/
def save_entry (S : SerdeEnv) (E : CryptoEnv) (salt nonce : List Byte)
    (f : EntriesFile) (entry : MemoryEntry) (password : Option String) :
    Except String EntriesFile :=
  let entries := load_or_default S f
  save_all_entries S E salt nonce (upsert entries entry) password

/-- Mirrors `StorageManager::delete_entry`: load (swallowing failures),
retain entries with a different id, write back (always without a password)
only if the count decreased; returns the flag together with the resulting
file state. -/
def delete_entry (S : SerdeEnv) (E : CryptoEnv) (salt nonce : List Byte)
    (f : EntriesFile) (entry_id : String) :
    Except String (Bool × EntriesFile) :=
  let entries := load_or_default S f
  let remaining := entries.filter (fun e => e.id != entry_id)
  if remaining.length < entries.length then
    match save_all_entries S E salt nonce remaining none with
    | .error e => .error e
    | .ok f' => .ok (true, f')
  else .ok (false, f)

/-- Mirrors `StorageManager::get_entry`: linear scan by id over the plaintext
collection. -/
def get_entry (S : SerdeEnv) (f : EntriesFile) (entry_id : String) :
    Except String (Option MemoryEntry) :=
  match load_all_entries S f with
  | .error e => .error e
  | .ok entries => .ok (entries.find? (fun e => e.id == entry_id))

/-- Mirrors `StorageManager::get_all_entries`. -/
def get_all_entries (S : SerdeEnv) (f : EntriesFile) :
    Except String (List MemoryEntry) :=
  load_all_entries S f

/-- Mirrors `StorageManager::matches_filter`: the early-`return false`
chain over the five optional filter dimensions, written as a conjunction. -/
def matches_filter (entry : MemoryEntry) (filter : SearchFilter) : Bool :=
  (match filter.keyword with
   | some keyword =>
     let keyword_lower := rustLower keyword
     strContains (rustLower entry.title) keyword_lower ||
       strContains (rustLower entry.content) keyword_lower
   | none => true) &&
  (match filter.memory_type with
   | some memory_type => decide (entry.memory_type = memory_type)
   | none => true) &&
  (match filter.emotion_tags with
   | some emotion_tags => emotion_tags.any (fun tag => entry.emotion_tags.contains tag)
   | none => true) &&
  (match filter.date_range with
   | some date_range =>
     !(decide (entry.created_at < date_range.start) ||
       decide (entry.created_at > date_range.stop))
   | none => true) &&
  (match filter.tags with
   | some tags =>
     match entry.metadata with
     | some entry_metadata =>
       match entry_metadata.tags with
       | some entry_tags => tags.any (fun tag => entry_tags.contains tag)
       | none => false
     | none => false
   | none => true)

/-- Mirrors `StorageManager::search_entries`. -/
def search_entries (S : SerdeEnv) (f : EntriesFile) (filter : SearchFilter) :
    Except String (List MemoryEntry) :=
  match load_all_entries S f with
  | .error e => .error e
  | .ok entries => .ok (entries.filter (fun entry => matches_filter entry filter))

/-- Mirrors `StorageManager::get_random_entry`; the random choice of
`entries.choose(rng)` is modelled by an arbitrary index `pick`, reduced
modulo the length. -/
def get_random_entry (S : SerdeEnv) (f : EntriesFile) (pick : Nat) :
    Except String (Option MemoryEntry) :=
  match load_all_entries S f with
  | .error e => .error e
  | .ok entries =>
    if entries.isEmpty then .ok none
    else .ok (entries.get? (pick % entries.length))

/-- Mirrors `StorageManager::load_entries_with_password`: missing or blank
file is the empty collection; otherwise the content must parse as an
`EncryptionResult`, which is decrypted with the given password and the
result parsed as an entries list. -/
def load_entries_with_password (S : SerdeEnv) (E : CryptoEnv)
    (f : EntriesFile) (password : String) :
    Except String (List MemoryEntry) :=
  match f with
  | .missing => .ok []
  | .unreadable => .error "Failed to read entries file"
  | .content s =>
    if trimEmpty s then .ok []
    else
      match S.parseContainer s with
      | none => .error "Failed to parse encrypted data"
      | some encrypted_data =>
        match decrypt E { encrypted_data := encrypted_data.encrypted_data
                          nonce := encrypted_data.nonce
                          salt := encrypted_data.salt
                          password := password } with
        | .error e => .error e
        | .ok decrypted_content =>
          match S.parseEntries decrypted_content with
          | some entries => .ok entries
          | none => .error "Failed to parse decrypted entries"

/-! ## Concrete executable instantiations of the abstract environments

The environments below are used by witnesses and counterexamples.  They are
small executable stand-ins for the external crates, chosen so that every
environmental hypothesis a theorem takes (base64 round-trip, AEAD inverse,
pointwise serde round-trips) provably holds for them. -/

/-- Hexadecimal digit for a value below 16, computed arithmetically from the
codepoint (a concrete binary-to-text encoder standing in for the base64
crate in witnesses). -/
def hexDigit (n : Nat) : Char :=
  if n < 10 then Char.ofNat (48 + n)
  else if n < 16 then Char.ofNat (87 + n)
  else 'x'

/-- Inverse of `hexDigit`, computed arithmetically from the codepoint. -/
def hexVal (c : Char) : Option Nat :=
  if 48 ≤ c.toNat ∧ c.toNat ≤ 57 then some (c.toNat - 48)
  else if 97 ≤ c.toNat ∧ c.toNat ≤ 102 then some (c.toNat - 87)
  else none

/-- Hex-encode a byte list, two characters per byte. -/
def hexEncL : List Byte → List Char
  | [] => []
  | b :: bs => hexDigit (b.val / 16) :: hexDigit (b.val % 16) :: hexEncL bs

/-- Hex-decode a character list, two characters per byte. -/
def hexDecL : List Char → Option (List Byte)
  | [] => some []
  | c0 :: c1 :: cs =>
    match hexVal c0, hexVal c1, hexDecL cs with
    | some hi, some lo, some bs =>
      if h : hi < 16 ∧ lo < 16 then some (⟨hi * 16 + lo, by omega⟩ :: bs)
      else none
    | _, _, _ => none
  | _ => none

/-- Hex codec on strings: encoder. -/
def hexEnc (bs : List Byte) : String := String.mk (hexEncL bs)

/-- Hex codec on strings: decoder. -/
def hexDec (s : String) : Option (List Byte) := hexDecL s.data

theorem hexVal_hexDigit_fin : ∀ i : Fin 16, hexVal (hexDigit i.val) = some i.val := by
  decide

theorem hexVal_hexDigit (n : Nat) (h : n < 16) : hexVal (hexDigit n) = some n :=
  hexVal_hexDigit_fin ⟨n, h⟩

theorem hexDecL_hexEncL : ∀ bs : List Byte, hexDecL (hexEncL bs) = some bs
  | [] => rfl
  | b :: bs => by
    have hb := b.isLt
    have h1 : b.val / 16 < 16 := by omega
    have h2 : b.val % 16 < 16 := by omega
    have hv : b.val / 16 * 16 + b.val % 16 = b.val := by omega
    simp only [hexEncL, hexDecL, hexVal_hexDigit _ h1, hexVal_hexDigit _ h2,
      hexDecL_hexEncL bs]
    rw [dif_pos ⟨h1, h2⟩]
    simp [Fin.ext_iff, hv]

theorem hexDec_hexEnc (bs : List Byte) : hexDec (hexEnc bs) = some bs :=
  hexDecL_hexEncL bs

theorem hexEnc_ne_empty (bs : List Byte) (h : bs ≠ []) : hexEnc bs ≠ "" := by
  cases bs with
  | nil => exact absurd rfl h
  | cons b bs =>
    intro hc
    have := congrArg String.data hc
    simp [hexEnc, hexEncL] at this

/-- Byte of a character, for the toy `str::as_bytes`. -/
def byteOfChar (c : Char) : Byte := ⟨c.toNat % 256, Nat.mod_lt _ (by omega)⟩

/-- Concrete `CryptoEnv`: a constant 32-byte Argon2 hash, an AEAD that
prepends one byte as a stand-in tag, the hex codec for base64, and
byte-per-character string conversions (exact on ASCII data). -/
def toyCryptoEnv : CryptoEnv where
  argonHash := fun _ _ => some (List.replicate 32 ⟨0, by omega⟩)
  aeadEnc := fun _ _ data => some (⟨1, by omega⟩ :: data)
  aeadDec := fun _ _ ct =>
    match ct with
    | [] => none
    | _ :: rest => some rest
  b64enc := hexEnc
  b64dec := hexDec
  strBytes := fun s => s.data.map byteOfChar
  bytesStr := fun bs => some (String.mk (bs.map (fun b => Char.ofNat b.val)))

/-- Sample entry with id `"a"`. -/
def entA : MemoryEntry where
  id := "a"
  title := "Joy day"
  content := "sunny"
  memory_type := .text
  emotion_tags := [.joy]
  created_at := 0
  updated_at := 0
  is_encrypted := false
  attachments := none
  metadata := none

/-- Sample entry with id `"e"`. -/
def entE : MemoryEntry where
  id := "e"
  title := "quiet"
  content := "rain"
  memory_type := .text
  emotion_tags := []
  created_at := 0
  updated_at := 0
  is_encrypted := false
  attachments := none
  metadata := none

/-- Concrete container decoder: strings starting with `C` hold the three
container fields separated by dots; anything else is not a container. -/
def toyParseContainer (s : String) : Option EncryptionResult :=
  match s.data with
  | 'C' :: rest =>
    let ed := rest.takeWhile (fun c => c != '.')
    let r1 := (rest.dropWhile (fun c => c != '.')).drop 1
    let nn := r1.takeWhile (fun c => c != '.')
    let sa := (r1.dropWhile (fun c => c != '.')).drop 1
    some { encrypted_data := String.mk ed, nonce := String.mk nn, salt := String.mk sa }
  | _ => none

/-- Concrete `SerdeEnv` used by witnesses: the entry-list serializer writes
`E` followed by the length, and the parsers are its pointwise inverses on
the lists that actually occur. -/
def toySerdeEnv : SerdeEnv where
  parseContainer := toyParseContainer
  parseEntries := fun s =>
    if s = "P" then some [entA]
    else if s = "E1" then some [entE]
    else if s = "E2" then some [entA, entE]
    else none
  serializeEntries := fun es => "E" ++ toString es.length
  serializeContainer := fun c =>
    "C" ++ c.encrypted_data ++ "." ++ c.nonce ++ "." ++ c.salt

/-- A 1-byte salt (decrypt never checks the salt length). -/
def saltShort : List Byte := [⟨0, by omega⟩]

/-- A 16-byte salt, deliberately not the 32 bytes the spec requires. -/
def salt16 : List Byte := List.replicate 16 ⟨0, by omega⟩

/-- A 32-byte salt, as produced by `generate_salt`. -/
def salt32 : List Byte := List.replicate 32 ⟨0, by omega⟩

/-- A 12-byte nonce, as produced by `generate_nonce`. -/
def nonce12 : List Byte := List.replicate 12 ⟨0, by omega⟩

/-! ## Specification-side predicates -/

/-- Additive rubric of §4.4 of the spec, written as a plain sum: +25 for
length ≥ 8, +15 more for length ≥ 12, +10 more for length ≥ 16, +10 each for
a lowercase ASCII letter, an uppercase ASCII letter and an ASCII digit, and
+20 for any non-alphanumeric character. -/
def scoreSpec (p : String) : Nat :=
  (if utf8Len p ≥ 8 then 25 else 0) + (if utf8Len p ≥ 12 then 15 else 0) +
  (if utf8Len p ≥ 16 then 10 else 0) +
  (if p.data.any isAsciiLowercase then 10 else 0) +
  (if p.data.any isAsciiUppercase then 10 else 0) +
  (if p.data.any isAsciiDigit then 10 else 0) +
  (if p.data.any (fun c => !rustIsAlphanumeric c) then 20 else 0)

/-- Shape of every successful `load_entries_with_password` result: a missing
file or blank content yields the empty list, and otherwise the content parsed
as a container, the password decrypted it, and the decrypted text parsed as
exactly the returned entries. -/
def LoadPwSuccessShape (S : SerdeEnv) (E : CryptoEnv) (f : EntriesFile)
    (password : String) (entries : List MemoryEntry) : Prop :=
  match f with
  | .missing => entries = []
  | .unreadable => False
  | .content s =>
    (trimEmpty s = true ∧ entries = []) ∨
    (trimEmpty s = false ∧ ∃ c ds, S.parseContainer s = some c ∧
      decrypt E { encrypted_data := c.encrypted_data, nonce := c.nonce,
                  salt := c.salt, password := password } = .ok ds ∧
      S.parseEntries ds = some entries)

/-- Decryption parameters whose salt decodes to 16 bytes instead of 32,
with a well-formed 12-byte nonce (the argon2 crate accepts 16-byte salts,
which the concrete `argonHash` reflects). -/
def c6params : DecryptionParams where
  encrypted_data := hexEnc [⟨1, by omega⟩, ⟨104, by omega⟩]
  nonce := hexEnc nonce12
  salt := hexEnc salt16
  password := "p"

/-! ## C7 -/

/-- C7 counterexample: the claim asserts `score("weak") == 25`, but the
scorer awards `"weak"` (4 lowercase characters, length below 8) only the
+10 lowercase bonus, i.e. 10. -/
theorem validate_weak_ne_25 : validate_password_strength "weak" ≠ 25 := by decide

set_option maxHeartbeats 1000000 in
/-- C7 (amended): the scorer follows the literal additive rubric — the score
of a non-empty password is the clamped sum of the length and character-class
bonuses — with `score("") = 0`, `score("weak") = 10` (not 25), and a
17-character password containing uppercase, lowercase, digit and symbol
scoring exactly 100. -/
theorem password_strength_rubric :
    (∀ p : String,
      validate_password_strength p = if p = "" then 0 else min (scoreSpec p) 100) ∧
    validate_password_strength "" = 0 ∧
    validate_password_strength "weak" = 10 ∧
    utf8Len "Aa1!Aa1!Aa1!Aa1!A" = 17 ∧
    validate_password_strength "Aa1!Aa1!Aa1!Aa1!A" = 100 := by
  refine ⟨fun p => ?_, by decide, by decide, by decide, by decide⟩
  by_cases hp : p = ""
  · simp [validate_password_strength, hp]
  · simp only [validate_password_strength, scoreSpec, hp, if_false]
    split_ifs <;> rfl

/-! ## C10 -/

/-- C10: the length thresholds compare the UTF-8 byte length, not the
character count — four 3-byte CJK characters form a 4-character, 12-byte
password that earns the ≥ 8 and ≥ 12 length bonuses (25 + 15 = 40) — and the
+20 special-character bonus uses Unicode alphanumeric classification, so the
CJK-only password earns no +20 bonus. -/
theorem cjk_password_scoring :
    ("中中中中".data.length = 4) ∧ (utf8Len "中中中中" = 12) ∧
    (rustIsAlphanumeric '中' = true) ∧
    (validate_password_strength "中中中中" = 40) := by decide

/-! ## C6 -/

/-- C6 counterexample: `decrypt` succeeds on a container whose base64-decoded
salt has 16 bytes instead of 32 — the source checks only the nonce length, so
the claim that it fails whenever the decoded salt is not exactly 32 bytes is
false. -/
theorem decrypt_accepts_wrong_length_salt :
    decrypt toyCryptoEnv c6params = .ok "h" ∧
    (toyCryptoEnv.b64dec c6params.salt).map List.length = some 16 := by decide

/-- C6 (amended): `decrypt` enforces only the nonce length — whenever it
succeeds, the base64-decoded nonce had exactly 12 bytes; the salt length is
not checked and a wrong-length salt flows into key derivation. -/
theorem decrypt_success_implies_nonce_length (E : CryptoEnv)
    (params : DecryptionParams) (s : String) (h : decrypt E params = .ok s) :
    (E.b64dec params.nonce).map List.length = some 12 := by
  unfold decrypt at h
  repeat' split at h
  any_goals exact (Except.noConfusion h)
  simp_all

theorem decrypt_success_implies_nonce_length_witness :
    (toyCryptoEnv.b64dec c6params.nonce).map List.length = some 12 :=
  decrypt_success_implies_nonce_length toyCryptoEnv c6params "h" (by decide)

/-! ## C5 -/

/-- C5 counterexample: for an absent entries file (and likewise for blank
content), `load_entries_with_password` returns a successful empty entry list
even though the file content does not parse as an `EncryptedContainer`,
contradicting the claim that it fails in those cases. -/
theorem load_with_password_missing_file_succeeds :
    load_entries_with_password toySerdeEnv toyCryptoEnv .missing "pw" = .ok [] ∧
    load_entries_with_password toySerdeEnv toyCryptoEnv (.content " ") "pw" = .ok [] := by
  decide

/-- C5 (amended): apart from a missing file or blank content, which yield a
successful empty list, `load_entries_with_password` never returns a
successful entry list unless the file content parses as an
`EncryptedContainer` that the given password decrypts and whose plaintext
parses as exactly the returned entries; in particular a wrong password
(AEAD authentication failure inside `decrypt`) or unparsable content always
propagates an error. -/
theorem load_with_password_success_shape (S : SerdeEnv) (E : CryptoEnv)
    (f : EntriesFile) (password : String) (entries : List MemoryEntry)
    (h : load_entries_with_password S E f password = .ok entries) :
    LoadPwSuccessShape S E f password entries := by
  cases f with
  | missing =>
    simp only [load_entries_with_password] at h
    exact (Except.ok.inj h).symm
  | unreadable => exact (Except.noConfusion h)
  | content s =>
    simp only [load_entries_with_password] at h
    show (trimEmpty s = true ∧ entries = []) ∨ _
    by_cases ht : trimEmpty s = true
    · rw [if_pos ht] at h
      exact Or.inl ⟨ht, (Except.ok.inj h).symm⟩
    · rw [if_neg ht] at h
      refine Or.inr ⟨by simpa using ht, ?_⟩
      cases hc : S.parseContainer s with
      | none => simp only [hc] at h; exact (Except.noConfusion h)
      | some c =>
        simp only [hc] at h
        cases hd : decrypt E ⟨c.encrypted_data, c.nonce, c.salt, password⟩ with
        | error e => simp only [hd] at h; exact (Except.noConfusion h)
        | ok ds =>
          simp only [hd] at h
          cases hp : S.parseEntries ds with
          | none => simp only [hp] at h; exact (Except.noConfusion h)
          | some es =>
            simp only [hp] at h
            exact ⟨c, ds, rfl, hd, by rw [hp, Except.ok.inj h]⟩

theorem load_with_password_success_shape_witness :
    LoadPwSuccessShape toySerdeEnv toyCryptoEnv .missing "pw" [] :=
  load_with_password_success_shape toySerdeEnv toyCryptoEnv .missing "pw" [] rfl

theorem upsert_nil (e : MemoryEntry) : upsert [] e = [e] := by
  simp [upsert]

/-! ## C2 -/

/-- C2: every load failure inside `save_entry` and `delete_entry`
(unreadable file, content parsing as an `EncryptedContainer`, or content
parsing as neither shape) is swallowed and replaced by the empty collection:
`save_entry` behaves exactly as saving over the empty collection — with no
password it succeeds and writes a collection holding just the given entry —
and `delete_entry` proceeds over the empty collection, reporting no deletion
and leaving the file unchanged. -/
theorem save_delete_swallow_load_failure (S : SerdeEnv) (E : CryptoEnv)
    (salt nonce : List Byte) (f : EntriesFile) (entry : MemoryEntry)
    (password : Option String) (entry_id err : String)
    (hload : load_all_entries S f = .error err) :
    save_entry S E salt nonce f entry password =
      save_all_entries S E salt nonce [entry] password ∧
    save_entry S E salt nonce f entry none =
      .ok (.content (S.serializeEntries [entry])) ∧
    delete_entry S E salt nonce f entry_id = .ok (false, f) := by
  have hdef : load_or_default S f = [] := by
    unfold load_or_default; rw [hload]
  refine ⟨?_, ?_, ?_⟩
  · simp only [save_entry, hdef, upsert_nil]
  · simp only [save_entry, save_all_entries, hdef, upsert_nil]
  · simp [delete_entry, hdef]

theorem save_delete_swallow_load_failure_witness :
    delete_entry toySerdeEnv toyCryptoEnv saltShort nonce12 .unreadable "z" =
      .ok (false, .unreadable) :=
  (save_delete_swallow_load_failure toySerdeEnv toyCryptoEnv saltShort nonce12
    .unreadable entE none "z" "Failed to read entries file" rfl).2.2

/-! ## C4 -/

/-- C4: the four plaintext-only read paths all go through
`load_all_entries`, which attempts the container parse first — content that
parses as an `EncryptedContainer` makes every one of them fail with the
password-required error; a missing file or blank content yields the empty
collection; and only when the container parse fails is the content parsed
as a plain collection. -/
theorem plaintext_read_paths_dispatch (S : SerdeEnv) (s : String)
    (c : EncryptionResult) (entry_id : String) (filter : SearchFilter) (pick : Nat)
    (ht : trimEmpty s = false) (hc : S.parseContainer s = some c) :
    get_entry S (.content s) entry_id = .error "Entries are encrypted, password required" ∧
    get_all_entries S (.content s) = .error "Entries are encrypted, password required" ∧
    search_entries S (.content s) filter = .error "Entries are encrypted, password required" ∧
    get_random_entry S (.content s) pick = .error "Entries are encrypted, password required" ∧
    get_entry S .missing entry_id = .ok none ∧
    get_all_entries S .missing = .ok [] ∧
    search_entries S .missing filter = .ok [] ∧
    get_random_entry S .missing pick = .ok none ∧
    (∀ s', trimEmpty s' = true → get_all_entries S (.content s') = .ok []) ∧
    (∀ s' es', trimEmpty s' = false → S.parseContainer s' = none →
      S.parseEntries s' = some es' → get_all_entries S (.content s') = .ok es') := by
  have hload : load_all_entries S (.content s) =
      .error "Entries are encrypted, password required" := by
    simp only [load_all_entries]
    rw [if_neg (by simp [ht]), hc]
  refine ⟨?_, ?_, ?_, ?_, rfl, rfl, rfl, rfl, ?_, ?_⟩
  · unfold get_entry; rw [hload]
  · unfold get_all_entries; exact hload
  · unfold search_entries; rw [hload]
  · unfold get_random_entry; rw [hload]
  · intro s' ht'
    simp only [get_all_entries, load_all_entries]
    rw [if_pos ht']
  · intro s' es' ht' hc' hp'
    simp only [get_all_entries, load_all_entries]
    rw [if_neg (by simp [ht']), hc', hp']

theorem plaintext_read_paths_dispatch_witness :
    get_all_entries toySerdeEnv (.content "C0.0.0") =
      .error "Entries are encrypted, password required" :=
  (plaintext_read_paths_dispatch toySerdeEnv "C0.0.0" ⟨"0", "0", "0"⟩ "z"
    ⟨none, none, none, none, none⟩ 0 (by decide) (by decide)).2.1

/-! ## C1 -/

/-- C1: for every non-empty password and non-empty data string, decrypting
the container produced by `encrypt` with the same password succeeds and
returns exactly the data.  The environmental hypotheses are documented
properties of the external crates: base64 decode inverts encode and is
non-empty on non-empty input, AEAD decryption inverts AEAD encryption under
the same key and nonce, AEAD ciphertexts are non-empty (they carry the
16-byte tag), and `String::from_utf8` inverts `str::as_bytes`.  The salt and
nonce lengths are those produced by `generate_salt` and `generate_nonce`. -/
theorem encrypt_then_decrypt_roundtrip (E : CryptoEnv) (salt nonce : List Byte)
    (data password : String) (res : EncryptionResult)
    (hnonce : nonce.length = 12) (hsalt : salt.length = 32)
    (hb64 : ∀ bs, E.b64dec (E.b64enc bs) = some bs)
    (hb64ne : ∀ bs : List Byte, bs ≠ [] → E.b64enc bs ≠ "")
    (haead : ∀ key n pt ct, E.aeadEnc key n pt = some ct → E.aeadDec key n ct = some pt)
    (hctne : ∀ key n pt ct, E.aeadEnc key n pt = some ct → ct ≠ [])
    (hutf : E.bytesStr (E.strBytes data) = some data)
    (henc : encrypt E salt nonce data password = .ok res) :
    decrypt E { encrypted_data := res.encrypted_data, nonce := res.nonce,
                salt := res.salt, password := password } = .ok data := by
  unfold encrypt at henc
  by_cases h0 : data = "" ∨ password = ""
  · rw [if_pos h0] at henc; exact (Except.noConfusion henc)
  rw [if_neg h0] at henc
  cases hdk : derive_key E password salt with
  | error e => simp only [hdk] at henc; exact (Except.noConfusion henc)
  | ok key_bytes =>
    simp only [hdk] at henc
    cases hae : E.aeadEnc key_bytes nonce (E.strBytes data) with
    | none => simp only [hae] at henc; exact (Except.noConfusion henc)
    | some encrypted_bytes =>
      simp only [hae] at henc
      have hres := Except.ok.inj henc
      subst hres
      have h1 : E.b64enc encrypted_bytes ≠ "" := hb64ne _ (hctne _ _ _ _ hae)
      have h2 : E.b64enc nonce ≠ "" :=
        hb64ne _ (by intro hg; rw [hg] at hnonce; simp at hnonce)
      have h3 : E.b64enc salt ≠ "" :=
        hb64ne _ (by intro hg; rw [hg] at hsalt; simp at hsalt)
      have h4 : password ≠ "" := fun hg => h0 (Or.inr hg)
      have hdec : E.aeadDec key_bytes nonce encrypted_bytes = some (E.strBytes data) :=
        haead _ _ _ _ hae
      have hne : ¬(E.b64enc encrypted_bytes = "" ∨ E.b64enc nonce = "" ∨
          E.b64enc salt = "" ∨ password = "") := by
        push_neg
        exact ⟨h1, h2, h3, h4⟩
      simp only [decrypt]
      rw [if_neg hne]
      simp only [hb64]
      rw [if_neg (show ¬(nonce.length ≠ 12) from fun hk => hk hnonce)]
      simp only [hdk, hdec, hutf]

/-- Ciphertext produced by the concrete environment for data `"d"`. -/
def c1ct : List Byte := ⟨1, by omega⟩ :: toyCryptoEnv.strBytes "d"

/-- Container produced by `encrypt` in the concrete environment for data
`"d"` and password `"p"` with the all-zero salt and nonce. -/
def c1res : EncryptionResult where
  encrypted_data := hexEnc c1ct
  nonce := hexEnc nonce12
  salt := hexEnc salt32

theorem encrypt_then_decrypt_roundtrip_witness :
    decrypt toyCryptoEnv
      { encrypted_data := c1res.encrypted_data, nonce := c1res.nonce,
        salt := c1res.salt, password := "p" } = .ok "d" :=
  encrypt_then_decrypt_roundtrip toyCryptoEnv salt32 nonce12 "d" "p" c1res
    (by decide) (by decide)
    (fun bs => hexDec_hexEnc bs)
    (fun bs h => hexEnc_ne_empty bs h)
    (fun key n pt ct h => by
      have hct : ct = ⟨1, by omega⟩ :: pt := by
        simpa [toyCryptoEnv] using h.symm
      subst hct; rfl)
    (fun key n pt ct h => by
      have hct : ct = ⟨1, by omega⟩ :: pt := by
        simpa [toyCryptoEnv] using h.symm
      subst hct; simp)
    (by decide)
    (by decide)

/-! ## C3 -/

theorem filter_ne_eq_self (es : List MemoryEntry) (entry_id : String)
    (h : ∀ e ∈ es, e.id ≠ entry_id) :
    es.filter (fun e => e.id != entry_id) = es := by
  apply List.filter_eq_self.mpr
  intro e he
  simpa [bne_iff_ne] using h e he

theorem filter_ne_length_of_nodup (es : List MemoryEntry) (entry_id : String)
    (hnd : (es.map (fun e => e.id)).Nodup)
    (hmem : entry_id ∈ es.map (fun e => e.id)) :
    (es.filter (fun e => e.id != entry_id)).length + 1 = es.length := by
  induction es with
  | nil => simp at hmem
  | cons a as ih =>
    simp only [List.map_cons, List.nodup_cons, List.mem_cons] at hnd hmem
    by_cases ha : a.id = entry_id
    · have hnot : as.filter (fun e => e.id != entry_id) = as := by
        apply List.filter_eq_self.mpr
        intro e he
        simp only [bne_iff_ne, ne_eq, decide_eq_true_eq]
        intro heq
        have hin : a.id ∈ as.map (fun e => e.id) := by
          rw [ha]
          exact heq ▸ List.mem_map_of_mem _ he
        exact hnd.1 hin
      simp [List.filter_cons, ha, hnot]
    · have hmem' : entry_id ∈ as.map (fun e => e.id) := by
        rcases hmem with h | h
        · exact absurd h.symm ha
        · exact h
      have hrec := ih hnd.2 hmem'
      rw [List.filter_cons, if_pos (by simpa [bne_iff_ne] using ha)]
      simp only [List.length_cons]
      omega

/-- C3: `delete_entry` removes all entries with the matching id and reports
whether a deletion occurred — on a loaded collection, a nonexistent id
yields `false` with the file unchanged (no write), an existing id (with
unique ids) yields `true` with the collection one entry shorter, and
whenever it reports `true` the written file is the plaintext serialization
of the remaining entries (the password-less branch of `save_all_entries`),
never an encrypted container. -/
theorem delete_entry_semantics (S : SerdeEnv) (E : CryptoEnv)
    (salt nonce : List Byte) (f : EntriesFile) (entry_id : String)
    (es : List MemoryEntry) (hload : load_all_entries S f = .ok es) :
    ((∀ e ∈ es, e.id ≠ entry_id) →
      delete_entry S E salt nonce f entry_id = .ok (false, f)) ∧
    ((es.map (fun e => e.id)).Nodup → entry_id ∈ es.map (fun e => e.id) →
      delete_entry S E salt nonce f entry_id =
        .ok (true, .content (S.serializeEntries
          (es.filter (fun e => e.id != entry_id)))) ∧
      (es.filter (fun e => e.id != entry_id)).length + 1 = es.length) ∧
    (∀ b f', delete_entry S E salt nonce f entry_id = .ok (b, f') → b = true →
      f' = .content (S.serializeEntries (es.filter (fun e => e.id != entry_id)))) := by
  have hdef : load_or_default S f = es := by
    unfold load_or_default; rw [hload]
  refine ⟨?_, ?_, ?_⟩
  · intro hne
    have hfil := filter_ne_eq_self es entry_id hne
    simp [delete_entry, hdef, hfil]
  · intro hnd hmem
    have hlen := filter_ne_length_of_nodup es entry_id hnd hmem
    refine ⟨?_, hlen⟩
    simp only [delete_entry, hdef]
    rw [if_pos (by omega)]
    rfl
  · intro b f' hdel hb
    subst hb
    simp only [delete_entry, hdef] at hdel
    by_cases hlt : (es.filter (fun e => e.id != entry_id)).length < es.length
    · rw [if_pos hlt] at hdel
      simp only [save_all_entries] at hdel
      have := Except.ok.inj hdel
      exact (Prod.mk.injEq _ _ _ _ ▸ this).2.symm
    · rw [if_neg hlt] at hdel
      have := Except.ok.inj hdel
      exact absurd (Prod.mk.injEq _ _ _ _ ▸ this).1 (by simp)

theorem delete_entry_semantics_witness :
    delete_entry toySerdeEnv toyCryptoEnv saltShort nonce12 (.content "P") "a" =
      .ok (true, .content (toySerdeEnv.serializeEntries
        (List.filter (fun e => e.id != "a") [entA]))) :=
  ((delete_entry_semantics toySerdeEnv toyCryptoEnv saltShort nonce12
    (.content "P") "a" [entA] (by decide)).2.1 (by decide) (by decide)).1

/-! ## C8 -/

/-- Declarative reading of the filter from the spec: every specified
dimension must match (keyword: case-insensitive substring of title or
content; category: exact; emotion tags and metadata tags: any overlap;
date range: inclusive bounds on `created_at`; missing metadata or metadata
tags fail a specified tags dimension). -/
def filterSpec (entry : MemoryEntry) (filter : SearchFilter) : Prop :=
  (∀ kw ∈ filter.keyword,
    (rustLower kw).data <:+: (rustLower entry.title).data ∨
    (rustLower kw).data <:+: (rustLower entry.content).data) ∧
  (∀ t ∈ filter.memory_type, entry.memory_type = t) ∧
  (∀ ts ∈ filter.emotion_tags, ∃ t ∈ ts, t ∈ entry.emotion_tags) ∧
  (∀ r ∈ filter.date_range,
    r.start ≤ entry.created_at ∧ entry.created_at ≤ r.stop) ∧
  (∀ ts ∈ filter.tags, ∃ md, entry.metadata = some md ∧
    ∃ ets, md.tags = some ets ∧ ∃ t ∈ ts, t ∈ ets)

/-- C8: `search_entries` returns exactly the loaded entries passing
`matches_filter`; `matches_filter` holds precisely when all specified
dimensions of the filter match, in the declarative sense of the spec
(AND across dimensions, any-overlap within the tag sets, inclusive date
bounds, missing metadata failing a specified tags dimension); and the
all-unset filter returns every entry. -/
theorem search_entries_filter_semantics (S : SerdeEnv) (f : EntriesFile)
    (filter : SearchFilter) (es : List MemoryEntry)
    (hload : load_all_entries S f = .ok es) :
    search_entries S f filter =
      .ok (es.filter (fun e => matches_filter e filter)) ∧
    (∀ e, matches_filter e filter = true ↔ filterSpec e filter) ∧
    (filter = ⟨none, none, none, none, none⟩ → search_entries S f filter = .ok es) := by
  refine ⟨?_, ?_, ?_⟩
  · unfold search_entries; rw [hload]
  · intro e
    obtain ⟨kw, mt, fets, dr, tg⟩ := filter
    obtain ⟨eid, etitle, econtent, etype, eemo, ecr, eup, eenc, eatt, emd⟩ := e
    rcases emd with _ | ⟨wc, rt, loc, wea, mood, mtags⟩
    · cases kw <;> cases mt <;> cases fets <;> cases dr <;> cases tg <;>
        simp [matches_filter, filterSpec, strContains, List.any_eq_true,
          Int.not_lt, not_or, and_assoc]
    · rcases mtags with _ | etags
      · cases kw <;> cases mt <;> cases fets <;> cases dr <;> cases tg <;>
          simp [matches_filter, filterSpec, strContains, List.any_eq_true,
            Int.not_lt, not_or, and_assoc]
      · cases kw <;> cases mt <;> cases fets <;> cases dr <;> cases tg <;>
          simp [matches_filter, filterSpec, strContains, List.any_eq_true,
            Int.not_lt, not_or, and_assoc]
  · intro hf
    subst hf
    simp only [search_entries, hload]
    have hall : List.filter
        (fun entry => matches_filter entry ⟨none, none, none, none, none⟩) es = es :=
      List.filter_eq_self.mpr (fun e _ => rfl)
    rw [hall]

theorem search_entries_filter_semantics_witness :
    search_entries toySerdeEnv (.content "P")
      ⟨some "joy", none, none, none, none⟩ =
      .ok (List.filter
        (fun e => matches_filter e ⟨some "joy", none, none, none, none⟩) [entA]) :=
  (search_entries_filter_semantics toySerdeEnv (.content "P")
    ⟨some "joy", none, none, none, none⟩ [entA] (by decide)).1

/-! ## C9 -/

theorem upsert_cons_ne (a : MemoryEntry) (as : List MemoryEntry)
    (e : MemoryEntry) (h : (a.id == e.id) = false) :
    upsert (a :: as) e = a :: upsert as e := by
  simp only [upsert, List.findIdx?_cons, h, if_false]
  cases hfi : as.findIdx? (fun x => x.id == e.id) with
  | none => simp [hfi]
  | some i => simp [hfi, List.set_cons_succ]

theorem upsert_idem (es : List MemoryEntry) (e : MemoryEntry) :
    upsert (upsert es e) e = upsert es e := by
  induction es with
  | nil =>
    rw [upsert_nil]
    simp [upsert, List.findIdx?_cons]
  | cons a as ih =>
    by_cases ha : (a.id == e.id) = true
    · have h1 : upsert (a :: as) e = e :: as := by
        simp [upsert, List.findIdx?_cons, ha]
      rw [h1]
      simp [upsert, List.findIdx?_cons]
    · have hfa : (a.id == e.id) = false := Bool.eq_false_iff.mpr ha
      rw [upsert_cons_ne a as e hfa, upsert_cons_ne a (upsert as e) e hfa, ih]

theorem load_or_default_content_roundtrip (S : SerdeEnv) (Y : List MemoryEntry)
    (h1 : trimEmpty (S.serializeEntries Y) = false)
    (h2 : S.parseContainer (S.serializeEntries Y) = none)
    (h3 : S.parseEntries (S.serializeEntries Y) = some Y) :
    load_or_default S (.content (S.serializeEntries Y)) = Y := by
  simp [load_or_default, load_all_entries, h1, h2, h3]

/-- C9 (amended): with no password, `save_entry` is idempotent on the
persisted collection — the second call loads the just-written plaintext
collection back, the upsert replaces the entry with an equal copy by id, and
the written file is identical to the first call's.  (The claim fails when a
password is supplied: see the counterexample.)  The hypotheses are the serde
round-trip at the one serialized list involved. -/
theorem save_entry_plaintext_idempotent (S : SerdeEnv) (E : CryptoEnv)
    (salt1 nonce1 salt2 nonce2 : List Byte) (f : EntriesFile) (entry : MemoryEntry)
    (ht : trimEmpty (S.serializeEntries (upsert (load_or_default S f) entry)) = false)
    (hpc : S.parseContainer (S.serializeEntries (upsert (load_or_default S f) entry)) = none)
    (hpe : S.parseEntries (S.serializeEntries (upsert (load_or_default S f) entry)) =
      some (upsert (load_or_default S f) entry)) :
    save_entry S E salt1 nonce1 f entry none =
      .ok (.content (S.serializeEntries (upsert (load_or_default S f) entry))) ∧
    save_entry S E salt2 nonce2
        (.content (S.serializeEntries (upsert (load_or_default S f) entry))) entry none =
      .ok (.content (S.serializeEntries (upsert (load_or_default S f) entry))) := by
  constructor
  · rfl
  · have hld := load_or_default_content_roundtrip S
      (upsert (load_or_default S f) entry) ht hpc hpe
    simp only [save_entry, hld, save_all_entries]
    rw [upsert_idem]

theorem save_entry_plaintext_idempotent_witness :
    save_entry toySerdeEnv toyCryptoEnv saltShort nonce12
        (.content (toySerdeEnv.serializeEntries
          (upsert (load_or_default toySerdeEnv .missing) entE))) entE none =
      .ok (.content (toySerdeEnv.serializeEntries
        (upsert (load_or_default toySerdeEnv .missing) entE))) :=
  (save_entry_plaintext_idempotent toySerdeEnv toyCryptoEnv saltShort nonce12
    saltShort nonce12 .missing entE (by decide) (by decide) (by decide)).2

/-- Scenario for the C9 counterexample: starting from a plaintext file
holding `entA`, save `entE` twice with password `"p"`, observing the
persisted collection (via the password load path) after each call. -/
def c9Scenario : Except String (List MemoryEntry × List MemoryEntry) :=
  match save_entry toySerdeEnv toyCryptoEnv saltShort nonce12
      (.content "P") entE (some "p") with
  | .error e => .error e
  | .ok f1 =>
    match save_entry toySerdeEnv toyCryptoEnv saltShort nonce12 f1 entE (some "p") with
    | .error e => .error e
    | .ok f2 =>
      match load_entries_with_password toySerdeEnv toyCryptoEnv f1 "p",
            load_entries_with_password toySerdeEnv toyCryptoEnv f2 "p" with
      | .ok l1, .ok l2 => .ok (l1, l2)
      | _, _ => .error "unexpected"

/-- C9 counterexample: calling `save_entry` twice in a row with the same
unchanged entry and the same password leaves the persisted collection with
2 entries after the first call but only 1 after the second — the second
call's plaintext load of the now-encrypted file fails, is swallowed as the
empty collection, and only the given entry is re-persisted — so the claimed
idempotence for every collection with the same password argument is false. -/
theorem save_entry_with_password_not_idempotent :
    c9Scenario = .ok ([entA, entE], [entE]) ∧
    [entA, entE].length = 2 ∧ [entE].length = 1 := by decide

end PeachBlossom
